import Mathlib

/-!
Verification of the chirpy HTTP service (Go).

Go strings are modelled as `List Char`; `len` is modelled as character
count (exact for ASCII bodies, which is what all claims exercise).
Character classification follows Go's `unicode.IsSpace`; lowercasing
follows Go's `strings.ToLower` restricted to ASCII, which covers the
alphabet of the fixed denylist.  The database, clock and UUID source are
external collaborators and enter the handler models as explicit
parameters; `time.Now()` is modelled as reading a supplied clock value,
one parameter per call site.
-/

namespace Chirpy

/-- Whitespace test used by Go's `strings.Fields` (`unicode.IsSpace`):
the Latin-1 white space characters together with the Unicode
White_Space code points. -/
def goIsSpace (c : Char) : Bool :=
  c = ' ' || c = '\t' || c = '\n' || (c = Char.ofNat 0x0B) || (c = Char.ofNat 0x0C) ||
  c = '\r' || c = Char.ofNat 0x85 || c = Char.ofNat 0xA0 ||
  c = Char.ofNat 0x1680 ||
  (0x2000 ≤ c.toNat && c.toNat ≤ 0x200A) ||
  c = Char.ofNat 0x2028 || c = Char.ofNat 0x2029 ||
  c = Char.ofNat 0x202F || c = Char.ofNat 0x205F || c = Char.ofNat 0x3000

/-- ASCII lowercasing, the fragment of Go's `strings.ToLower` relevant to
the ASCII denylist comparisons in `cleanChirpBody`. -/
def goToLower (c : Char) : Char :=
  if 'A' ≤ c && c ≤ 'Z' then Char.ofNat (c.toNat + 32) else c

/-- Lowercasing of a whole word (`strings.ToLower`). -/
def toLowerStr (w : List Char) : List Char :=
  w.map goToLower

/-- Splitting into whitespace-delimited fields (`strings.Fields`):
maximal runs of non-whitespace characters, in order. -/
def fields : List Char → List (List Char)
  | [] => []
  | c :: rest =>
    if goIsSpace c then fields rest
    else
      match rest with
      | [] => [[c]]
      | d :: _ =>
        if goIsSpace d then [c] :: fields rest
        else
          match fields rest with
          | [] => [[c]]
          | f :: fs2 => (c :: f) :: fs2

/-- Joining words with a single space (`strings.Join(words, " ")`). -/
def joinSp : List (List Char) → List Char
  | [] => []
  | [w] => w
  | w :: ws => w ++ ' ' :: joinSp ws

/-- The fixed denylist of `cleanChirpBody`. -/
def profaneWords : List (List Char) :=
  ["kerfuffle".toList, "sharbert".toList, "fornax".toList]

/-- The mask literal written over a denylisted word. -/
def starMask : List Char := "****".toList

/-- The inner loop of `cleanChirpBody`: scan the denylist and replace the
word with the mask at the first case-insensitive match (`break`). -/
def maskLoop : List (List Char) → List Char → List Char
  | [], w => w
  | p :: ps, w => if toLowerStr w = p then starMask else maskLoop ps w

/-- Model of `cleanChirpBody` from src/main.go: split into fields, mask
each word via the denylist loop, join with single spaces. -/
def cleanChirpBody (body : List Char) : List Char :=
  joinSp ((fields body).map (maskLoop profaneWords))

/-- Validation error kinds of `validateChirp` (§7 taxonomy). -/
inductive ValidationError where
  | TooLong
  | Empty
  deriving DecidableEq, Repr

/-- The client-facing message of each validation error, as produced by
`fmt.Errorf` in `validateChirp`. -/
def ValidationError.message : ValidationError → List Char
  | .TooLong => "chirp is too long".toList
  | .Empty => "chirp body cannot be empty".toList

/-- Model of `validateChirp` from src/main.go: reject bodies longer than
140, then empty bodies, accept everything else. -/
def validateChirp (body : List Char) : Except ValidationError Unit :=
  if body.length > 140 then .error .TooLong
  else if body.length = 0 then .error .Empty
  else .ok ()

example : validateChirp "hi".toList = .ok () := rfl
example : validateChirp [] = .error .Empty := rfl
example : cleanChirpBody "KERFUFFLE".toList = "****".toList := by decide
example : cleanChirpBody "a  sharbert b".toList = "a **** b".toList := by decide
example : cleanChirpBody "  ".toList = [] := by decide

/-! ### Data model and handler embeddings -/

/-- A stored chirp row (struct `Chirp` in src/main.go); timestamps are
abstract clock readings. -/
structure Chirp where
  id : String
  createdAt : Nat
  updatedAt : Nat
  body : List Char
  userID : String
  deriving DecidableEq, Repr

/-- A decoded POST /api/chirps payload (struct `ChirpRequest`). -/
structure ChirpRequest where
  body : List Char
  userID : String

/-- A decoded POST /api/users payload (struct `UserRequest`). -/
structure UserRequest where
  email : String

/-- A stored user row (struct `User` in src/main.go). -/
structure User where
  id : String
  createdAt : Nat
  updatedAt : Nat
  email : String
  deriving DecidableEq, Repr

/-- The response of the create-chirp handler: 400 with an error message,
500 with a generic message, or 201 with the chirp record. -/
inductive ChirpResponse where
  | badRequest (message : List Char)
  | serverError (message : List Char)
  | created (c : Chirp)
  deriving DecidableEq, Repr

/-- HTTP status of a create-chirp response. -/
def ChirpResponse.status : ChirpResponse → Nat
  | .badRequest _ => 400
  | .serverError _ => 500
  | .created _ => 201

/-- Model of `saveChirp`: the INSERT either fails with the database's
error or appends the row to the chirps table. -/
def saveChirp (dbResult : Except String Unit) (st : List Chirp) (c : Chirp) :
    Except String (List Chirp) :=
  match dbResult with
  | .error e => .error e
  | .ok _ => .ok (st ++ [c])

/-- Model of `createChirpHandler`: decode, validate, clean, build the
chirp from a fresh UUID and two successive clock readings, then save.
`decoded` is the JSON decode outcome, `now1` and `now2` the values
returned by the two `time.Now()` calls, `dbResult` the INSERT outcome. -/
def createChirpHandler (decoded : Option ChirpRequest) (newId : String)
    (now1 now2 : Nat) (dbResult : Except String Unit) (st : List Chirp) :
    ChirpResponse × List Chirp :=
  match decoded with
  | none => (.badRequest "Invalid request payload".toList, st)
  | some req =>
    match validateChirp req.body with
    | .error e => (.badRequest e.message, st)
    | .ok _ =>
      let chirp : Chirp :=
        { id := newId, createdAt := now1, updatedAt := now2,
          body := cleanChirpBody req.body, userID := req.userID }
      match saveChirp dbResult st chirp with
      | .error _ => (.serverError "Could not save chirp".toList, st)
      | .ok st2 => (.created chirp, st2)

/-- Ordering used by the list query (`ORDER BY created_at ASC`). -/
def chirpLe (a b : Chirp) : Prop := a.createdAt ≤ b.createdAt

instance : DecidableRel chirpLe := fun _ _ => Nat.decLe _ _

instance : IsTotal Chirp chirpLe := ⟨fun _ _ => Nat.le_total _ _⟩

instance : IsTrans Chirp chirpLe := ⟨fun _ _ _ => Nat.le_trans⟩

/-- The row sequence produced by
`SELECT ... FROM chirps ORDER BY created_at ASC`: a sorted permutation of
the table. -/
def listChirps (st : List Chirp) : List Chirp :=
  List.insertionSort chirpLe st

/-- Model of `getChirpHandler` on a reachable store: 200 with all chirps
ordered ascending by created_at. -/
def getChirpHandler (st : List Chirp) : Nat × List Chirp :=
  (200, listChirps st)

/-- The response of the get-chirp-by-id handler: 200 with the row, or
404 when the query returns no rows. -/
inductive GetChirpResponse where
  | ok (c : Chirp)
  | notFound
  deriving DecidableEq, Repr

/-- HTTP status of a get-chirp-by-id response. -/
def GetChirpResponse.status : GetChirpResponse → Nat
  | .ok _ => 200
  | .notFound => 404

/-- Model of `getChirpByIDHandler`: `QueryRow ... WHERE id = $1` yields
the stored row with matching id, or `ErrNoRows`, mapped to 404. -/
def getChirpByIDHandler (chirpID : String) (st : List Chirp) : GetChirpResponse :=
  match st.find? (fun c => c.id == chirpID) with
  | some c => .ok c
  | none => .notFound

/-! ### The users table schema and the create-user handler -/

/-- A column declaration of the SQL schema. -/
structure ColumnSpec where
  name : String
  notNull : Bool
  hasDefault : Bool

/-- The users table from src/sql/schema/001_users.sql. `PRIMARY KEY`
implies NOT NULL; `created_at` and `updated_at` carry `DEFAULT now()`;
`email` and `hashed_password` are NOT NULL without a default. -/
def usersSchema : List ColumnSpec :=
  [⟨"id", true, false⟩,
   ⟨"created_at", true, true⟩,
   ⟨"updated_at", true, true⟩,
   ⟨"email", true, false⟩,
   ⟨"hashed_password", true, false⟩]

/-- The column list of the INSERT statement in `createUserHandler`. -/
def userInsertColumns : List String :=
  ["id", "created_at", "updated_at", "email"]

/-- An INSERT into users succeeds only if every NOT NULL column without
a default receives a value; otherwise the store rejects the row with a
not-null violation. -/
def execInsertUsers (provided : List String) : Except String Unit :=
  if usersSchema.all
      (fun col => provided.contains col.name || col.hasDefault || !col.notNull)
  then .ok ()
  else .error "null value violates not-null constraint"

/-- The response of the create-user handler. -/
inductive UserResponse where
  | badRequest (message : List Char)
  | serverError (message : List Char)
  | created (u : User)
  deriving DecidableEq, Repr

/-- HTTP status of a create-user response. -/
def UserResponse.status : UserResponse → Nat
  | .badRequest _ => 400
  | .serverError _ => 500
  | .created _ => 201

/-- Model of `createUserHandler`: decode, build the user from a fresh
UUID and two clock readings, run the INSERT (which supplies only
`userInsertColumns`), 500 on store error, else 201 with the record. -/
def createUserHandler (decoded : Option UserRequest) (newId : String)
    (now1 now2 : Nat) (users : List User) : UserResponse × List User :=
  match decoded with
  | none => (.badRequest "Invalid request payload".toList, users)
  | some req =>
    let user : User := ⟨newId, now1, now2, req.email⟩
    match execInsertUsers userInsertColumns with
    | .error _ => (.serverError "Could not create user".toList, users)
    | .ok _ => (.created user, users ++ [user])

/-- Model of `resetHandler`: run `DELETE FROM users`; on error respond
500 leaving the hit counter untouched, otherwise zero the counter and
respond 200. `dbResult` is the DELETE outcome; on success the users
table is emptied. -/
def resetHandler (dbResult : Except String Unit) (hits : Int) (users : List User) :
    Nat × Int × List User :=
  match dbResult with
  | .error _ => (500, hits, users)
  | .ok _ => (200, 0, [])

/-- Second definition for the refinement claim about the moderator,
following the spec's words (§4.2): a token is replaced with the mask
exactly when its lowercasing is a member of the denylist, every other
token is kept unchanged, and tokens are rejoined with single spaces. -/
def cleanChirpBodySpec (body : List Char) : List Char :=
  joinSp ((fields body).map
    (fun w => if toLowerStr w ∈ profaneWords then starMask else w))

/-! ### Lemmas about the moderator pipeline -/

/-- A well-formed token: non-empty and free of whitespace.  Every field
produced by `fields` is of this shape, and so is the mask. -/
def wfToken (t : List Char) : Prop :=
  t ≠ [] ∧ ∀ c ∈ t, goIsSpace c = false

/-- Splitting the empty string yields no fields. -/
theorem fields_nil : fields [] = [] := rfl

/-- Joining no words yields the empty string. -/
theorem joinSp_nil : joinSp [] = [] := rfl

/-- Joining a single word yields that word. -/
theorem joinSp_one (w : List Char) : joinSp [w] = w := rfl

/-- One-step unfolding of `fields` on a non-empty list. -/
theorem fields_cons_eq (c : Char) (rest : List Char) :
    fields (c :: rest) =
      if goIsSpace c then fields rest
      else
        match rest with
        | [] => [[c]]
        | d :: _ =>
          if goIsSpace d then [c] :: fields rest
          else
            match fields rest with
            | [] => [[c]]
            | f :: fs2 => (c :: f) :: fs2 := rfl

/-- Splitting skips a leading whitespace character. -/
theorem fields_space_cons (d : Char) (x : List Char) (hd : goIsSpace d = true) :
    fields (d :: x) = fields x := by
  rw [fields_cons_eq, if_pos hd]

/-- Splitting a non-whitespace singleton. -/
theorem fields_one (c : Char) (hc : goIsSpace c = false) :
    fields [c] = [[c]] := by
  rw [fields_cons_eq, if_neg (by simp [hc])]

/-- Splitting at a field boundary: non-whitespace head, whitespace next. -/
theorem fields_cons_cons_space (c d : Char) (r : List Char)
    (hc : goIsSpace c = false) (hd : goIsSpace d = true) :
    fields (c :: d :: r) = [c] :: fields (d :: r) := by
  rw [fields_cons_eq, if_neg (by simp [hc])]
  simp [hd]

/-- Extending the first field: two adjacent non-whitespace characters. -/
theorem fields_cons_cons_nonspace (c d : Char) (r t : List Char)
    (ts : List (List Char)) (hc : goIsSpace c = false) (hd : goIsSpace d = false)
    (hf : fields (d :: r) = t :: ts) :
    fields (c :: d :: r) = (c :: t) :: ts := by
  rw [fields_cons_eq, if_neg (by simp [hc])]
  simp only [hd, Bool.false_eq_true, if_false, hf]

/-- Splitting a list that begins with a non-whitespace character yields
a first field that begins with that character. -/
theorem fields_head_shape : ∀ (d : Char) (r : List Char), goIsSpace d = false →
    ∃ t ts, fields (d :: r) = (d :: t) :: ts
  | d, [], h => ⟨[], [], fields_one d h⟩
  | d, e :: r2, h => by
    by_cases he : goIsSpace e
    · exact ⟨[], fields (e :: r2), fields_cons_cons_space d e r2 h he⟩
    · obtain ⟨t, ts, hf⟩ := fields_head_shape e r2 (by simpa using he)
      exact ⟨e :: t, ts, fields_cons_cons_nonspace d e r2 (e :: t) ts h (by simpa using he) hf⟩

/-- Every field produced by `fields` is a well-formed token. -/
theorem fields_wf (s : List Char) : ∀ t ∈ fields s, wfToken t := by
  induction s with
  | nil => intro t ht; rw [fields_nil] at ht; simp at ht
  | cons c rest ih =>
    by_cases hc : goIsSpace c
    · intro t ht
      rw [fields_space_cons c rest hc] at ht
      exact ih t ht
    · have hc2 : goIsSpace c = false := by simpa using hc
      cases rest with
      | nil =>
        intro t ht
        rw [fields_one c hc2] at ht
        simp at ht
        subst ht
        exact ⟨by simp, by simp [hc2]⟩
      | cons e r2 =>
        by_cases he : goIsSpace e
        · intro t ht
          rw [fields_cons_cons_space c e r2 hc2 he] at ht
          rcases List.mem_cons.mp ht with rfl | ht2
          · exact ⟨by simp, by simp [hc2]⟩
          · exact ih t ht2
        · have he2 : goIsSpace e = false := by simpa using he
          obtain ⟨u, us, hf⟩ := fields_head_shape e r2 he2
          intro t ht
          rw [fields_cons_cons_nonspace c e r2 (e :: u) us hc2 he2 hf] at ht
          rcases List.mem_cons.mp ht with rfl | ht2
          · have hwf := ih (e :: u) (by rw [hf]; simp)
            refine ⟨by simp, ?_⟩
            intro a ha
            rcases List.mem_cons.mp ha with rfl | ha2
            · exact hc2
            · exact hwf.2 a ha2
          · exact ih t (by rw [hf]; simp [ht2])

/-- Splitting a well-formed token followed by nothing or by whitespace
peels off exactly that token. -/
theorem fields_token_append : ∀ (t x : List Char), t ≠ [] →
    (∀ c ∈ t, goIsSpace c = false) →
    (x = [] ∨ ∃ d r, x = d :: r ∧ goIsSpace d = true) →
    fields (t ++ x) = t :: fields x
  | [], _, ht, _, _ => absurd rfl ht
  | [c], x, _, hts, hx => by
    have hc : goIsSpace c = false := hts c (by simp)
    rcases hx with rfl | ⟨d, r, rfl, hd⟩
    · simpa using fields_one c hc
    · exact fields_cons_cons_space c d r hc hd
  | c :: c2 :: t2, x, _, hts, hx => by
    have hc : goIsSpace c = false := hts c (by simp)
    have hc2 : goIsSpace c2 = false := hts c2 (by simp)
    have ih := fields_token_append (c2 :: t2) x (by simp)
      (fun a ha => hts a (List.mem_cons_of_mem c ha)) hx
    rw [List.cons_append] at ih
    rw [List.cons_append, List.cons_append]
    exact fields_cons_cons_nonspace c c2 (t2 ++ x) (c2 :: t2) (fields x) hc hc2 ih

/-- Joining two or more words places a single space after the first. -/
theorem joinSp_cons_cons (a b : List Char) (l : List (List Char)) :
    joinSp (a :: b :: l) = a ++ ' ' :: joinSp (b :: l) := rfl

/-- Splitting is a left inverse of joining on well-formed tokens. -/
theorem fields_joinSp (ts : List (List Char)) (h : ∀ t ∈ ts, wfToken t) :
    fields (joinSp ts) = ts := by
  induction ts with
  | nil => rw [joinSp_nil, fields_nil]
  | cons t ts ih =>
    cases ts with
    | nil =>
      have hwf := h t (by simp)
      have := fields_token_append t [] hwf.1 hwf.2 (Or.inl rfl)
      rw [joinSp_one]
      simpa [fields_nil] using this
    | cons t2 ts2 =>
      have hwf := h t (by simp)
      rw [joinSp_cons_cons,
        fields_token_append t (' ' :: joinSp (t2 :: ts2)) hwf.1 hwf.2
          (Or.inr ⟨' ', joinSp (t2 :: ts2), rfl, by decide⟩),
        fields_space_cons ' ' (joinSp (t2 :: ts2)) (by decide),
        ih (fun u hu => h u (List.mem_cons_of_mem t hu))]

/-- The denylist scan with break equals a membership test on the
lowercased word. -/
theorem maskLoop_eq_mem (ps : List (List Char)) (w : List Char) :
    maskLoop ps w = if toLowerStr w ∈ ps then starMask else w := by
  induction ps with
  | nil => simp [maskLoop]
  | cons p ps ih =>
    by_cases h : toLowerStr w = p
    · simp [maskLoop, h]
    · simp [maskLoop, h, ih]

/-- The mask is itself a well-formed token. -/
theorem starMask_wf : wfToken starMask := ⟨by decide, by decide⟩

/-- Masking preserves token well-formedness. -/
theorem maskLoop_wf (t : List Char) (h : wfToken t) :
    wfToken (maskLoop profaneWords t) := by
  rw [maskLoop_eq_mem]
  by_cases hm : toLowerStr t ∈ profaneWords
  · simpa [hm] using starMask_wf
  · simpa [hm] using h

/-- The mask is a fixed point of masking. -/
theorem maskLoop_starMask : maskLoop profaneWords starMask = starMask := by decide

/-- Masking a word twice is the same as masking it once. -/
theorem maskLoop_idem (t : List Char) :
    maskLoop profaneWords (maskLoop profaneWords t) = maskLoop profaneWords t := by
  rw [maskLoop_eq_mem profaneWords t]
  by_cases hm : toLowerStr t ∈ profaneWords
  · rw [if_pos hm, maskLoop_starMask]
  · rw [if_neg hm, maskLoop_eq_mem, if_neg hm]

/-- Masking never lengthens a word: the mask has four characters while
every denylist word has at least six. -/
theorem maskLoop_length_le (t : List Char) :
    (maskLoop profaneWords t).length ≤ t.length := by
  rw [maskLoop_eq_mem]
  by_cases hm : toLowerStr t ∈ profaneWords
  · rw [if_pos hm]
    have hlen : (toLowerStr t).length = t.length := by simp [toLowerStr]
    have h4 : starMask.length = 4 := by decide
    simp only [profaneWords, List.mem_cons, List.not_mem_nil, or_false] at hm
    rcases hm with h | h | h
    · have h9 : ("kerfuffle".toList : List Char).length = 9 := by decide
      rw [h, h9] at hlen
      omega
    · have h8 : ("sharbert".toList : List Char).length = 8 := by decide
      rw [h, h8] at hlen
      omega
    · have h6 : ("fornax".toList : List Char).length = 6 := by decide
      rw [h, h6] at hlen
      omega
  · rw [if_neg hm]

/-- Prepending a character to the first word lengthens the join by one. -/
theorem joinSp_cons_head_length (c : Char) (f : List Char) (ts : List (List Char)) :
    (joinSp ((c :: f) :: ts)).length = 1 + (joinSp (f :: ts)).length := by
  cases ts with
  | nil =>
    rw [joinSp_one, joinSp_one]
    simp only [List.length_cons]
    omega
  | cons u ts2 =>
    rw [joinSp_cons_cons, joinSp_cons_cons]
    simp only [List.length_append, List.length_cons]
    omega

/-- Joining the fields of a string never exceeds its length, and when the
string starts with whitespace at least one character is saved. -/
theorem joinSp_fields_length (s : List Char) :
    (joinSp (fields s)).length ≤ s.length ∧
      (∀ d r, s = d :: r → goIsSpace d = true →
        (joinSp (fields s)).length + 1 ≤ s.length) := by
  induction s with
  | nil => exact ⟨by simp [fields_nil, joinSp_nil], fun d r h => by cases h⟩
  | cons c rest ih =>
    by_cases hc : goIsSpace c
    · refine ⟨?_, ?_⟩
      · rw [fields_space_cons c rest hc]
        have := ih.1
        simp only [List.length_cons]
        omega
      · intro d r hdr hd
        rw [fields_space_cons c rest hc]
        have := ih.1
        simp only [List.length_cons]
        omega
    · have hc2 : goIsSpace c = false := by simpa using hc
      refine ⟨?_, ?_⟩
      swap
      · intro d r hdr hd
        injection hdr with h1 h2
        subst h1
        rw [hd] at hc2
        cases hc2
      · cases rest with
        | nil =>
          rw [fields_one c hc2, joinSp_one]
        | cons e r2 =>
          by_cases he : goIsSpace e
          · rw [fields_cons_cons_space c e r2 hc2 he]
            have h2 := ih.2 e r2 rfl he
            cases hfs : fields (e :: r2) with
            | nil =>
              rw [joinSp_one]
              simp only [List.length_cons, List.length_nil]
              omega
            | cons f fs2 =>
              rw [hfs] at h2
              rw [joinSp_cons_cons]
              simp only [List.length_cons, List.length_append,
                List.length_nil] at h2 ⊢
              omega
          · have he2 : goIsSpace e = false := by simpa using he
            obtain ⟨t, ts, hf⟩ := fields_head_shape e r2 he2
            rw [fields_cons_cons_nonspace c e r2 (e :: t) ts hc2 he2 hf]
            rw [joinSp_cons_head_length c (e :: t) ts]
            have h1 := ih.1
            rw [hf] at h1
            simp only [List.length_cons] at h1 ⊢
            omega

/-- Masking each word never lengthens the join. -/
theorem joinSp_map_length (ts : List (List Char)) :
    (joinSp (ts.map (maskLoop profaneWords))).length ≤ (joinSp ts).length := by
  induction ts with
  | nil => simp [joinSp_nil]
  | cons t rest ih =>
    cases rest with
    | nil => simpa [joinSp_one] using maskLoop_length_le t
    | cons t2 ts2 =>
      simp only [List.map_cons] at ih ⊢
      rw [joinSp_cons_cons, joinSp_cons_cons]
      have hm := maskLoop_length_le t
      simp only [List.length_append, List.length_cons] at ih ⊢
      omega

/-- Cleaning never lengthens a body. -/
theorem cleanChirpBody_length_le (s : List Char) :
    (cleanChirpBody s).length ≤ s.length :=
  le_trans (joinSp_map_length (fields s)) (joinSp_fields_length s).1

/-- Every token of a cleaned body is well-formed. -/
theorem cleanChirpBody_wfTokens (s : List Char) :
    ∀ u ∈ (fields s).map (maskLoop profaneWords), wfToken u := by
  intro u hu
  obtain ⟨t, ht, rfl⟩ := List.mem_map.mp hu
  exact maskLoop_wf t (fields_wf s t ht)

/-- A body made of whitespace only has no fields. -/
theorem fields_all_space (s : List Char) (h : ∀ c ∈ s, goIsSpace c = true) :
    fields s = [] := by
  induction s with
  | nil => exact fields_nil
  | cons c rest ih =>
    rw [fields_space_cons c rest (h c (by simp))]
    exact ih (fun a ha => h a (List.mem_cons_of_mem c ha))

end Chirpy

namespace Chirpy

/-- C1: validateChirp succeeds exactly when the body length lies in
[1, 140]; it fails with TooLong exactly when the length exceeds 140 and
with Empty exactly when the length is zero, and there are no other
failures. -/
theorem validateChirp_iff (body : List Char) :
    (validateChirp body = .ok () ↔ 1 ≤ body.length ∧ body.length ≤ 140)
    ∧ (validateChirp body = .error .TooLong ↔ 140 < body.length)
    ∧ (validateChirp body = .error .Empty ↔ body.length = 0) := by
  unfold validateChirp
  by_cases h1 : body.length > 140
  · rw [if_pos h1]
    refine ⟨⟨fun h => Except.noConfusion h, fun h => by omega⟩, ?_, ?_⟩
    · simp
      omega
    · constructor
      · intro h
        injection h with h3
        exact ValidationError.noConfusion h3
      · intro h
        omega
  · rw [if_neg h1]
    by_cases h2 : body.length = 0
    · rw [if_pos h2]
      refine ⟨⟨fun h => Except.noConfusion h, fun h => by omega⟩, ?_, ?_⟩
      · constructor
        · intro h
          injection h with h3
          exact ValidationError.noConfusion h3
        · intro h
          omega
      · simpa using h2
    · rw [if_neg h2]
      refine ⟨?_, ?_, ?_⟩
      · simp
        omega
      · exact ⟨fun h => Except.noConfusion h, fun h => by omega⟩
      · exact ⟨fun h => Except.noConfusion h, fun h => by omega⟩

/-- C2: cleanChirpBody coincides with the spec's description — split
into whitespace-delimited tokens, replace exactly the tokens whose
lowercasing is in the denylist with the mask, keep all other tokens with
their original casing, rejoin with single spaces — and in particular
maps KERFUFFLE to the mask. -/
theorem cleanChirpBody_refines_spec :
    (∀ body : List Char, cleanChirpBody body = cleanChirpBodySpec body)
    ∧ cleanChirpBody "KERFUFFLE".toList = "****".toList := by
  constructor
  · intro body
    unfold cleanChirpBody cleanChirpBodySpec
    congr 1
    exact List.map_congr_left (fun w _ => maskLoop_eq_mem profaneWords w)
  · decide

/-- C3: under the schema of 001_users.sql, whose hashed_password column
is NOT NULL with no default, the INSERT of createUserHandler (which
supplies only id, created_at, updated_at and email) is always rejected,
so every decoded create-user request gets a 500 response with the
generic message and the users table never gains a row. -/
theorem createUserHandler_always_fails (req : UserRequest) (newId : String)
    (now1 now2 : Nat) (users : List User) :
    createUserHandler (some req) newId now1 now2 users
      = (.serverError "Could not create user".toList, users)
    ∧ (∀ decoded, (createUserHandler decoded newId now1 now2 users).2 = users) := by
  constructor
  · have h : execInsertUsers userInsertColumns
        = .error "null value violates not-null constraint" := rfl
    simp [createUserHandler, h]
  · intro decoded
    cases decoded with
    | none => rfl
    | some r =>
      have h : execInsertUsers userInsertColumns
          = .error "null value violates not-null constraint" := rfl
      simp [createUserHandler, h]

/-- C10: the reset handler zeroes the visit counter only after the user
deletion succeeds — on a delete error it responds 500 and leaves the
counter unchanged, and on success it responds 200 with the counter set
to zero. -/
theorem resetHandler_spec (hits : Int) (users : List User) :
    (∀ e, resetHandler (.error e) hits users = (500, hits, users))
    ∧ resetHandler (.ok ()) hits users = (200, 0, []) := by
  exact ⟨fun _ => rfl, rfl⟩

/-- C4: when the submitted body passes validation and the INSERT
succeeds, the persisted chirp carries exactly the cleaned body — of
length at most 140 — and the handler responds 201 with that record. -/
theorem createChirpHandler_spec (req : ChirpRequest) (newId : String)
    (now1 now2 : Nat) (st : List Chirp)
    (hv : validateChirp req.body = .ok ()) :
    createChirpHandler (some req) newId now1 now2 (.ok ()) st
      = (.created { id := newId, createdAt := now1, updatedAt := now2,
                    body := cleanChirpBody req.body, userID := req.userID },
         st ++ [{ id := newId, createdAt := now1, updatedAt := now2,
                  body := cleanChirpBody req.body, userID := req.userID }])
    ∧ (cleanChirpBody req.body).length ≤ 140 := by
  constructor
  · simp [createChirpHandler, hv, saveChirp]
  · have h1 : req.body.length ≤ 140 := by
      by_contra h
      unfold validateChirp at hv
      rw [if_pos (by omega)] at hv
      exact Except.noConfusion hv
    exact le_trans (cleanChirpBody_length_le req.body) h1

/-- Witness for C4 at a concrete request. -/
theorem createChirpHandler_spec_witness :
    createChirpHandler (some ⟨"hello".toList, "u1"⟩) "c1" 5 5 (.ok ()) []
      = (.created { id := "c1", createdAt := 5, updatedAt := 5,
                    body := cleanChirpBody "hello".toList, userID := "u1" },
         [{ id := "c1", createdAt := 5, updatedAt := 5,
            body := cleanChirpBody "hello".toList, userID := "u1" }])
    ∧ (cleanChirpBody "hello".toList).length ≤ 140 :=
  createChirpHandler_spec ⟨"hello".toList, "u1"⟩ "c1" 5 5 [] rfl

/-- C5: cleaning is idempotent. -/
theorem cleanChirpBody_idem (x : List Char) :
    cleanChirpBody (cleanChirpBody x) = cleanChirpBody x := by
  unfold cleanChirpBody
  rw [fields_joinSp ((fields x).map (maskLoop profaneWords)) (cleanChirpBody_wfTokens x)]
  congr 1
  rw [List.map_map]
  exact List.map_congr_left (fun t _ => maskLoop_idem t)

/-- C6 as stated fails: the handler reads the clock once for created_at
and again for updated_at, so with distinct readings 0 and 1 the stored
chirp has created_at 0 but updated_at 1. -/
theorem chirp_timestamps_counterexample :
    (createChirpHandler (some ⟨"hi".toList, "u1"⟩) "c1" 0 1 (.ok ()) []).2
      = [{ id := "c1", createdAt := 0, updatedAt := 1,
           body := "hi".toList, userID := "u1" }]
    ∧ ¬ (∀ c ∈ (createChirpHandler (some ⟨"hi".toList, "u1"⟩) "c1" 0 1 (.ok ()) []).2,
          c.createdAt = c.updatedAt) := by
  constructor
  · decide
  · decide

/-- C6 amended: created_at and updated_at are set at insert time from
two successive clock readings, so every chirp the handler adds to the
store has equal timestamps whenever the two readings coincide. -/
theorem chirp_timestamps_eq_of_same_clock (decoded : Option ChirpRequest)
    (newId : String) (t : Nat) (dbResult : Except String Unit) (st : List Chirp)
    (c : Chirp) (hc : c ∈ (createChirpHandler decoded newId t t dbResult st).2) :
    c ∈ st ∨ c.createdAt = c.updatedAt := by
  cases decoded with
  | none => exact Or.inl hc
  | some req =>
    cases hv : validateChirp req.body with
    | error e =>
      rw [createChirpHandler] at hc
      simp only [hv] at hc
      exact Or.inl hc
    | ok u =>
      cases dbResult with
      | error e =>
        rw [createChirpHandler] at hc
        simp only [hv, saveChirp] at hc
        exact Or.inl hc
      | ok u2 =>
        rw [createChirpHandler] at hc
        simp only [hv, saveChirp] at hc
        rcases List.mem_append.mp hc with h | h
        · exact Or.inl h
        · right
          have := List.mem_singleton.mp h
          rw [this]

/-- Witness for the amended C6 at a concrete request and clock value. -/
theorem chirp_timestamps_eq_of_same_clock_witness :
    ({ id := "c1", createdAt := 7, updatedAt := 7,
       body := cleanChirpBody "hi".toList, userID := "u1" } : Chirp) ∈ ([] : List Chirp)
    ∨ ({ id := "c1", createdAt := 7, updatedAt := 7,
         body := cleanChirpBody "hi".toList, userID := "u1" } : Chirp).createdAt
      = ({ id := "c1", createdAt := 7, updatedAt := 7,
           body := cleanChirpBody "hi".toList, userID := "u1" } : Chirp).updatedAt :=
  chirp_timestamps_eq_of_same_clock (some ⟨"hi".toList, "u1"⟩) "c1" 7 (.ok ()) []
    _ (by decide)

/-- C7: the chirp listing is a permutation of the stored chirps sorted
ascending by created_at, and after storing A then B with A earlier in
time the listing is exactly A followed by B. -/
theorem listChirps_spec (st : List Chirp) (A B : Chirp) :
    List.Perm (listChirps st) st
    ∧ List.Sorted chirpLe (listChirps st)
    ∧ (A.createdAt < B.createdAt → listChirps [A, B] = [A, B]) := by
  refine ⟨List.perm_insertionSort chirpLe st, List.sorted_insertionSort chirpLe st, ?_⟩
  intro hAB
  unfold listChirps
  simp only [List.insertionSort, List.orderedInsert]
  rw [if_pos (show chirpLe A B from Nat.le_of_lt hAB)]

/-- Witness for C7 at two concrete chirps created in order. -/
theorem listChirps_spec_witness :
    listChirps [⟨"a", 0, 0, [], "u"⟩, ⟨"b", 1, 1, [], "u"⟩]
      = [⟨"a", 0, 0, [], "u"⟩, ⟨"b", 1, 1, [], "u"⟩] :=
  (listChirps_spec [] ⟨"a", 0, 0, [], "u"⟩ ⟨"b", 1, 1, [], "u"⟩).2.2 (by decide)

/-- C8: the get-by-id handler responds 200 with exactly the stored chirp
whose id matches when such a (unique) chirp exists, and 404 when no
stored chirp carries the requested id. -/
theorem getChirpByIDHandler_spec (chirpID : String) (st : List Chirp) :
    (∀ c ∈ st, c.id = chirpID → (∀ d ∈ st, d.id = chirpID → d = c) →
        getChirpByIDHandler chirpID st = .ok c)
    ∧ ((∀ c ∈ st, c.id ≠ chirpID) → getChirpByIDHandler chirpID st = .notFound) := by
  constructor
  · intro c hc hcid huniq
    have hsome : (st.find? (fun x => x.id == chirpID)).isSome := by
      rw [List.find?_isSome]
      exact ⟨c, hc, by simp [hcid]⟩
    obtain ⟨d, hd⟩ := Option.isSome_iff_exists.mp hsome
    have hdmem : d ∈ st := List.mem_of_find?_eq_some hd
    have hdid : d.id = chirpID := by simpa using List.find?_some hd
    rw [getChirpByIDHandler, hd, huniq d hdmem hdid]
  · intro h
    have hnone : st.find? (fun x => x.id == chirpID) = none := by
      rw [List.find?_eq_none]
      intro x hx
      simpa using h x hx
    rw [getChirpByIDHandler, hnone]

/-- Witness for C8: a present id yields 200 with the record, an absent
id yields 404. -/
theorem getChirpByIDHandler_spec_witness :
    getChirpByIDHandler "x" [⟨"x", 0, 0, [], "u"⟩] = .ok ⟨"x", 0, 0, [], "u"⟩
    ∧ getChirpByIDHandler "y" [⟨"x", 0, 0, [], "u"⟩] = .notFound :=
  ⟨(getChirpByIDHandler_spec "x" [⟨"x", 0, 0, [], "u"⟩]).1 ⟨"x", 0, 0, [], "u"⟩
      (by decide) (by decide) (by decide),
   (getChirpByIDHandler_spec "y" [⟨"x", 0, 0, [], "u"⟩]).2 (by decide)⟩

/-- C9 as stated fails: 141 spaces form a non-empty body made only of
whitespace, yet validateChirp rejects it as TooLong instead of
accepting it. -/
theorem whitespace_only_counterexample :
    (List.replicate 141 ' ' : List Char) ≠ []
    ∧ (∀ c ∈ (List.replicate 141 ' ' : List Char), goIsSpace c = true)
    ∧ validateChirp (List.replicate 141 ' ') = .error .TooLong := by
  refine ⟨by simp, ?_, ?_⟩
  · intro c hc
    rw [List.eq_of_mem_replicate hc]
    decide
  · unfold validateChirp
    rw [if_pos (by simp)]

/-- C9 amended: every non-empty body of length at most 140 made only of
whitespace characters is accepted by validateChirp and cleaned to the
empty string. -/
theorem whitespace_only_accepted_cleans_empty (s : List Char) (h1 : s ≠ [])
    (h2 : ∀ c ∈ s, goIsSpace c = true) (h3 : s.length ≤ 140) :
    validateChirp s = .ok () ∧ cleanChirpBody s = [] := by
  constructor
  · have hlen : 0 < s.length := List.length_pos.mpr h1
    unfold validateChirp
    rw [if_neg (by omega), if_neg (by omega)]
  · rw [cleanChirpBody, fields_all_space s h2]
    rfl

/-- Witness for the amended C9 at a three-space body. -/
theorem whitespace_only_accepted_cleans_empty_witness :
    validateChirp [' ', ' ', ' '] = .ok () ∧ cleanChirpBody [' ', ' ', ' '] = [] :=
  whitespace_only_accepted_cleans_empty [' ', ' ', ' ']
    (by decide) (by decide) (by decide)

end Chirpy
